import Mathlib

/-!
Verification of the procedural terrain core of `babylon-game`.

Shallow embedding over exact rationals (`ℚ`) of:
* `src/src/utils/noise.ts` — `NoiseConfig`, `DEFAULT_NOISE_CONFIG`,
  `createNoise2DData` (fractal-noise heightfield generation and min-max
  normalization);
* `src/src/app.ts` / `src/unnamed/part_003` — `createTerrain` (vertex grid,
  island-edge shaping, index buffer);
* `src/src/shaders/fragment.glsl` and the `HeightColorMaterialPlugin`
  variant in `src/unnamed/part_001` — the 3-band elevation color gradient.

External host functions (the `alea` PRNG composed with simplex-noise's
`createNoise2D`, and `Math.pow` at non-integer exponents) are modelled as an
explicit environment record `JSLib`; IEEE NaN produced by the zero-range
normalization division is modelled as `none : Option ℚ`.
-/

/-- Environment of external host functions consumed by `createNoise2DData`.
`noiseSeeded s` is `createNoise2D(alea(s))` for a provided numeric seed `s`;
`noiseUnseeded t` is `createNoise2D(alea(undefined))` — the stream obtained
when the raw `config.seed` is absent, which depends on the call environment
(modelled by a call-instant parameter `t`) and is in no variant of the alea
package the same stream as `alea(0)`. `powQ b e` models `Math.pow(b, e)` for
a configuration-supplied (possibly non-integer) exponent `e`. -/
structure JSLib where
  noiseSeeded : ℚ → ℚ → ℚ → ℚ
  noiseUnseeded : ℤ → ℚ → ℚ → ℚ
  powQ : ℚ → ℚ → ℚ

/-- Interface `NoiseConfig` from `src/src/utils/noise.ts`: every field optional. -/
structure NoiseConfig where
  seed : Option ℚ
  scale : Option ℚ
  octaves : Option ℚ
  persistence : Option ℚ
  lacunarity : Option ℚ
  offsetX : Option ℚ
  offsetY : Option ℚ
  exponent : Option ℚ
  fudgeFactor : Option ℚ
deriving DecidableEq

/-- Record `Required<NoiseConfig>`: the merged configuration with no missing field. -/
structure NoiseConfigR where
  seed : ℚ
  scale : ℚ
  octaves : ℚ
  persistence : ℚ
  lacunarity : ℚ
  offsetX : ℚ
  offsetY : ℚ
  exponent : ℚ
  fudgeFactor : ℚ
deriving DecidableEq

/-- Constant `DEFAULT_NOISE_CONFIG` from `src/src/utils/noise.ts` (fudgeFactor 1.2). -/
def DEFAULT_NOISE_CONFIG : NoiseConfigR :=
  ⟨0, 1, 6, 1/2, 2, 0, 0, 1, 6/5⟩

/-- The spread merge `{ ...DEFAULT_NOISE_CONFIG, ...config }`: each absent
field falls back to its default. -/
def mergeConfig (c : NoiseConfig) : NoiseConfigR :=
  ⟨c.seed.getD 0, c.scale.getD 1, c.octaves.getD 6, c.persistence.getD (1/2),
   c.lacunarity.getD 2, c.offsetX.getD 0, c.offsetY.getD 0,
   c.exponent.getD 1, c.fudgeFactor.getD (6/5)⟩

/-- Number of iterations of `for (let i = 0; i < octaves; i++)` for a numeric
octave count: `max 0 ⌈octaves⌉`. -/
def octaveCount (o : ℚ) : ℕ :=
  (max 0 ⌈o⌉).toNat

/-- The octave accumulation loop body of `createNoise2DData`: after `k`
iterations, `value` holds
`Σ_{i<k} noise((nx·(1/scale)+offsetX)·lacunarity^i, (ny·(1/scale)+offsetY)·lacunarity^i) · persistence^i`. -/
def octaveSum (noise : ℚ → ℚ → ℚ) (c : NoiseConfigR) (nx ny : ℚ) : ℕ → ℚ
  | 0 => 0
  | k + 1 => octaveSum noise c nx ny k +
      noise ((nx * (1 / c.scale) + c.offsetX) * c.lacunarity ^ k)
            ((ny * (1 / c.scale) + c.offsetY) * c.lacunarity ^ k) *
        c.persistence ^ k

/-- Per-cell pre-normalization value of `createNoise2DData`:
`Math.pow(Math.abs(value) * fudgeFactor, exponent)` over the octave sum, at
normalized coordinates `nx = x/width`, `ny = y/height`. -/
def cellValue (lib : JSLib) (noise : ℚ → ℚ → ℚ) (c : NoiseConfigR)
    (w h x y : ℕ) : ℚ :=
  let nx : ℚ := (x : ℚ) / (w : ℚ)
  let ny : ℚ := (y : ℚ) / (h : ℚ)
  lib.powQ (|octaveSum noise c nx ny (octaveCount c.octaves)| * c.fudgeFactor)
    c.exponent

/-- The filled `data` buffer before normalization, in row-major order
(`index = y * width + x`, outer loop over `y`). -/
def rawField (lib : JSLib) (noise : ℚ → ℚ → ℚ) (c : NoiseConfigR)
    (w h : ℕ) : List ℚ :=
  (List.range h).flatMap fun y => (List.range w).map fun x =>
    cellValue lib noise c w h x y

/-- Spread maximum `Math.max(...data)` over the buffer (`none` when empty). -/
def spreadMax : List ℚ → Option ℚ
  | [] => none
  | v :: l =>
    some (match spreadMax l with
      | none => v
      | some m => max v m)

/-- Spread minimum `Math.min(...data)` over the buffer (`none` when empty). -/
def spreadMin : List ℚ → Option ℚ
  | [] => none
  | v :: l =>
    some (match spreadMin l with
      | none => v
      | some m => min v m)

/-- The final normalization loop of `createNoise2DData`:
`data[i] = (data[i] - lowest) / (highest - lowest)`. When the range is zero
the IEEE quotient `0 / 0` is NaN, modelled as `none`; otherwise the exact
rational quotient is produced. -/
def normalizeData (l : List ℚ) : List (Option ℚ) :=
  let hi := (spreadMax l).getD 0
  let lo := (spreadMin l).getD 0
  l.map fun v => if hi - lo = 0 then none else some ((v - lo) / (hi - lo))

/-- The seeded noise function the source selects: `alea(config.seed)` reads
the RAW optional `config.seed` (not the merged `_config.seed`), so an absent
seed selects the `alea(undefined)` stream of the call environment. -/
def noiseOf (lib : JSLib) (time : ℤ) (cfg : NoiseConfig) : ℚ → ℚ → ℚ :=
  match cfg.seed with
  | some s => lib.noiseSeeded s
  | none => lib.noiseUnseeded time

/-- Pre-normalization buffer of a `createNoise2DData(width, height, config)`
call made in environment `lib` at call instant `time`. -/
def rawOf (lib : JSLib) (time : ℤ) (w h : ℕ) (cfg : NoiseConfig) : List ℚ :=
  rawField lib (noiseOf lib time cfg) (mergeConfig cfg) w h

/-- Function `createNoise2DData` from `src/src/utils/noise.ts`: fill the buffer, then
min-max normalize it. The function performs no input validation. -/
def createNoise2DData (lib : JSLib) (time : ℤ) (w h : ℕ)
    (cfg : NoiseConfig) : List (Option ℚ) :=
  normalizeData (rawOf lib time w h cfg)

/-- Function `map` from `src/src/app.ts` (`MathUtils.mapLinear` in the `part_003`
variant): linear remap of `value` from `[fromMin, fromMax]` to
`[toMin, toMax]`. -/
def mapLinear (value fromMin fromMax toMin toMax : ℚ) : ℚ :=
  toMin + (toMax - toMin) * ((value - fromMin) / (fromMax - fromMin))

/-- Function `lerp` from `src/src/app.ts`. -/
def lerp (a b t : ℚ) : ℚ :=
  a + (b - a) * t

/-- The island edge ease `easeEdge(value) = Math.pow(value, 3)`. -/
def easeEdge (v : ℚ) : ℚ :=
  v ^ (3 : ℕ)

/-- One vertex of `createTerrain`: world X/Z from the grid index, the
heightfield sample shaped by the (always enabled, `const island = true`)
island edge attenuation, then rescaled to `[0, terrainHeight]`. The
heightfield lookup is abstracted to `heightAt x y`; `app.ts` reads
`heightMap[y * vertexCount + x]`, `part_003` reads a floor-resampled index
of a power-of-two buffer — both are instances of `heightAt`. Emitted as the
position triple `(vertexX, height, vertexY)`. -/
def terrainVertex (heightAt : ℕ → ℕ → ℚ) (vertexCount : ℕ)
    (terrainWidth terrainHeight : ℚ) (x y : ℕ) : ℚ × ℚ × ℚ :=
  let vertexX := mapLinear (x : ℚ) 0 ((vertexCount : ℚ) - 1)
    (-(terrainWidth / 2)) (terrainWidth / 2)
  let vertexY := mapLinear (y : ℚ) 0 ((vertexCount : ℚ) - 1)
    (-(terrainWidth / 2)) (terrainWidth / 2)
  let h0 := heightAt x y
  let nx := mapLinear |vertexX| 0 (terrainWidth / 2) 0 1
  let ny := mapLinear |vertexY| 0 (terrainWidth / 2) 0 1
  let edgeFactor := easeEdge (max nx ny)
  let h1 := lerp h0 0 edgeFactor
  let h2 := mapLinear h1 0 1 0 terrainHeight
  (vertexX, h2, vertexY)

/-- The `positions` array of `createTerrain`, as the row-major list of
position triples pushed by the double loop. -/
def terrainPositions (heightAt : ℕ → ℕ → ℚ) (vertexCount : ℕ)
    (terrainWidth terrainHeight : ℚ) : List (ℚ × ℚ × ℚ) :=
  (List.range vertexCount).flatMap fun y =>
    (List.range vertexCount).map fun x =>
      terrainVertex heightAt vertexCount terrainWidth terrainHeight x y

/-- The six indices pushed for the grid cell at `(x, y)`: two triangles. -/
def cellIndices (vertexCount x y : ℕ) : List ℕ :=
  [y * vertexCount + x, y * vertexCount + x + 1, (y + 1) * vertexCount + x,
   (y + 1) * vertexCount + x, y * vertexCount + x + 1,
   (y + 1) * vertexCount + x + 1]

/-- The `indices` array of `createTerrain`: the double loop pushes
`cellIndices` exactly when `x < vertexCount - 1 && y < vertexCount - 1`. -/
def terrainIndices (vertexCount : ℕ) : List ℕ :=
  (List.range vertexCount).flatMap fun y =>
    (List.range vertexCount).flatMap fun x =>
      if x < vertexCount - 1 ∧ y < vertexCount - 1 then
        cellIndices vertexCount x y
      else []

/-- RGB color triple. -/
abbrev Color := ℚ × ℚ × ℚ

/-- GLSL `mix(a, b, t) = a * (1 - t) + b * t`, one channel. -/
def mixQ (a b t : ℚ) : ℚ :=
  a * (1 - t) + b * t

/-- GLSL `mix` on RGB triples, componentwise. -/
def mixColor (a b : Color) (t : ℚ) : Color :=
  (mixQ a.1 b.1 t, mixQ a.2.1 b.2.1 t, mixQ a.2.2 b.2.2 t)

/-- GLSL `clamp(x, lo, hi)`. -/
def clampQ (x lo hi : ℚ) : ℚ :=
  min (max x lo) hi

/-- The 3-band elevation gradient of `src/src/shaders/fragment.glsl`
(`main`, lines 13–29), applied to the normalized height: clamp to `[0, 1]`,
then blend with factors `normalizedHeight * 3.0` below `0.33` and
`(normalizedHeight - 0.33) * 3.0` below `0.66`, else the solid high color. -/
def fragClassify (low mid high : Color) (normalizedHeight : ℚ) : Color :=
  let nh := clampQ normalizedHeight 0 1
  if nh < 33/100 then mixColor low mid (nh * 3)
  else if nh < 66/100 then mixColor mid high ((nh - 33/100) * 3)
  else high

/-- The 3-band elevation gradient of the `HeightColorMaterialPlugin`
variant in `src/unnamed/part_001` (`getCustomCode`, fragment block): blend
factors `normalizedHeight / 0.33` and `(normalizedHeight - 0.33) / 0.33`
(no clamp is applied in this variant). -/
def pluginClassify (low mid high : Color) (normalizedHeight : ℚ) : Color :=
  if normalizedHeight < 33/100 then
    mixColor low mid (normalizedHeight / (33/100))
  else if normalizedHeight < 66/100 then
    mixColor mid high ((normalizedHeight - 33/100) / (33/100))
  else high

/-- Concrete environment used to evaluate witnesses: the seeded stream is
the x-projection, the unseeded stream is constantly `0`, and `powQ b e = b`
(which agrees with `Math.pow` at the exponent `1` used by the witnesses). -/
def libW : JSLib :=
  ⟨fun _ x _ => x, fun _ _ _ => 0, fun b _ => b⟩

/-- Concrete environment whose seeded stream is constantly `0` (produces a
perfectly flat pre-normalization field). -/
def libFlat : JSLib :=
  ⟨fun _ _ _ => 0, fun _ _ _ => 0, fun b _ => b⟩

/-- Configuration `{ seed: 0, octaves: 1 }` (all other fields defaulted). -/
def cfgSeedOct1 : NoiseConfig :=
  ⟨some 0, none, some 1, none, none, none, none, none, none⟩

/-- Configuration `{ seed: 0, scale: 0, octaves: 1 }`. -/
def cfgScale0 : NoiseConfig :=
  ⟨some 0, some 0, some 1, none, none, none, none, none, none⟩

/-- Configuration `{}` — every field absent. -/
def cfgEmpty : NoiseConfig :=
  ⟨none, none, none, none, none, none, none, none, none⟩

/-- Configuration `{ seed: 0 }` — only the seed provided. -/
def cfgSeed0 : NoiseConfig :=
  ⟨some 0, none, none, none, none, none, none, none, none⟩

/-- A `some` result of `spreadMax` is an element of the buffer. -/
theorem spreadMax_mem {l : List ℚ} : ∀ {m : ℚ}, spreadMax l = some m → m ∈ l := by
  induction l with
  | nil => intro m h; simp [spreadMax] at h
  | cons v l ih =>
    intro m h
    rw [spreadMax] at h
    cases hl : spreadMax l with
    | none =>
      rw [hl] at h
      simp at h
      simp [h]
    | some m2 =>
      rw [hl] at h
      simp at h
      rcases max_choice v m2 with hc | hc
      · rw [← h, hc]; exact List.mem_cons_self v l
      · rw [← h, hc]; exact List.mem_cons_of_mem _ (ih hl)

/-- Only the empty buffer makes `spreadMax` return `none`. -/
theorem spreadMax_eq_none {l : List ℚ} (h : spreadMax l = none) : l = [] := by
  cases l with
  | nil => rfl
  | cons v l => simp [spreadMax] at h

/-- Every element of the buffer is at most `spreadMax`. -/
theorem le_spreadMax {l : List ℚ} : ∀ {a m : ℚ}, a ∈ l →
    spreadMax l = some m → a ≤ m := by
  induction l with
  | nil => intro a m ha _; simp at ha
  | cons v l ih =>
    intro a m ha h
    rw [spreadMax] at h
    cases hl : spreadMax l with
    | none =>
      rw [hl] at h
      simp at h
      rcases List.mem_cons.mp ha with hv | hv
      · exact le_of_eq (hv.trans h)
      · exact absurd (spreadMax_eq_none hl ▸ hv) (List.not_mem_nil a)
    | some m2 =>
      rw [hl] at h
      simp at h
      rcases List.mem_cons.mp ha with hv | hv
      · rw [← h, hv]; exact le_max_left v m2
      · rw [← h]; exact le_trans (ih hv hl) (le_max_right v m2)

/-- A `some` result of `spreadMin` is an element of the buffer. -/
theorem spreadMin_mem {l : List ℚ} : ∀ {m : ℚ}, spreadMin l = some m → m ∈ l := by
  induction l with
  | nil => intro m h; simp [spreadMin] at h
  | cons v l ih =>
    intro m h
    rw [spreadMin] at h
    cases hl : spreadMin l with
    | none =>
      rw [hl] at h
      simp at h
      simp [h]
    | some m2 =>
      rw [hl] at h
      simp at h
      rcases min_choice v m2 with hc | hc
      · rw [← h, hc]; exact List.mem_cons_self v l
      · rw [← h, hc]; exact List.mem_cons_of_mem _ (ih hl)

/-- Only the empty buffer makes `spreadMin` return `none`. -/
theorem spreadMin_eq_none {l : List ℚ} (h : spreadMin l = none) : l = [] := by
  cases l with
  | nil => rfl
  | cons v l => simp [spreadMin] at h

/-- Lower bound: `spreadMin` is below every element of the buffer. -/
theorem spreadMin_le {l : List ℚ} : ∀ {a m : ℚ}, a ∈ l →
    spreadMin l = some m → m ≤ a := by
  induction l with
  | nil => intro a m ha _; simp at ha
  | cons v l ih =>
    intro a m ha h
    rw [spreadMin] at h
    cases hl : spreadMin l with
    | none =>
      rw [hl] at h
      simp at h
      rcases List.mem_cons.mp ha with hv | hv
      · exact le_of_eq (h.symm.trans hv.symm)
      · exact absurd (spreadMin_eq_none hl ▸ hv) (List.not_mem_nil a)
    | some m2 =>
      rw [hl] at h
      simp at h
      rcases List.mem_cons.mp ha with hv | hv
      · rw [← h, hv]; exact min_le_left v m2
      · rw [← h]; exact le_trans (min_le_right v m2) (ih hv hl)

/-- On a buffer whose entries are all equal, the normalization divides the
zero numerator by the zero range: every output is NaN (`none`). -/
theorem normalizeData_flat {l : List ℚ} {c : ℚ} (h : ∀ v ∈ l, v = c) :
    normalizeData l = List.replicate l.length none := by
  cases hl : l with
  | nil => simp [normalizeData]
  | cons v t =>
    have hne : l ≠ [] := by simp [hl]
    subst hl
    cases hmax : spreadMax (v :: t) with
    | none => exact absurd (spreadMax_eq_none hmax) hne
    | some m =>
      cases hmin : spreadMin (v :: t) with
      | none => exact absurd (spreadMin_eq_none hmin) hne
      | some m2 =>
        have hm : m = c := h m (spreadMax_mem hmax)
        have hm2 : m2 = c := h m2 (spreadMin_mem hmin)
        simp only [normalizeData, hmax, hmin, Option.getD_some, hm, hm2,
          sub_self, if_pos rfl]
        simp [List.map_const, List.replicate_succ]

/-- Length of a row-major grid traversal: `width * height` entries. -/
theorem grid_length {α : Type} (f : ℕ → ℕ → α) (w h : ℕ) :
    ((List.range h).flatMap fun y =>
      (List.range w).map fun x => f x y).length = w * h := by
  induction h with
  | zero => simp
  | succ n ih =>
    rw [List.range_succ, List.flatMap_append, List.length_append, ih]
    simp [Nat.mul_succ]

/-- The pre-normalization buffer covers the full `width × height` grid. -/
theorem rawField_length (lib : JSLib) (noise : ℚ → ℚ → ℚ) (c : NoiseConfigR)
    (w h : ℕ) : (rawField lib noise c w h).length = w * h :=
  grid_length (fun x y => cellValue lib noise c w h x y) w h

/-- An octave count of `1` runs the loop once. -/
theorem octaveCount_one : octaveCount 1 = 1 := by
  have h : ⌈(1 : ℚ)⌉ = 1 := by norm_num
  rw [octaveCount, h]; rfl

/-- The default octave count of `6` runs the loop six times. -/
theorem octaveCount_six : octaveCount 6 = 6 := by
  have h : ⌈(6 : ℚ)⌉ = 6 := by norm_num
  rw [octaveCount, h]; rfl

/-- With `scale = 0` the term `nx * (1 / scale)` vanishes (JS: becomes
non-finite), so the octave sum does not depend on the grid cell. -/
theorem octaveSum_scale0 (noise : ℚ → ℚ → ℚ) (c : NoiseConfigR)
    (hs : c.scale = 0) (nx ny nx2 ny2 : ℚ) (k : ℕ) :
    octaveSum noise c nx ny k = octaveSum noise c nx2 ny2 k := by
  induction k with
  | zero => rfl
  | succ n ih => simp only [octaveSum, hs, div_zero, mul_zero, zero_mul, ih]

/-- With `scale = 0` or an empty octave loop, every cell of the buffer holds
the same value. -/
theorem cellValue_indep (lib : JSLib) (noise : ℚ → ℚ → ℚ) (c : NoiseConfigR)
    (hc : c.scale = 0 ∨ octaveCount c.octaves = 0) (w h x y : ℕ) :
    cellValue lib noise c w h x y = cellValue lib noise c w h 0 0 := by
  rcases hc with hs | ho
  · simp only [cellValue]
    rw [octaveSum_scale0 noise c hs ((x : ℚ) / (w : ℚ)) ((y : ℚ) / (h : ℚ))
      (((0 : ℕ) : ℚ) / (w : ℚ)) (((0 : ℕ) : ℚ) / (h : ℚ))]
  · simp only [cellValue, ho]
    rfl

/-- C1. Determinism: for a fixed provided seed, configuration and grid
dimensions, two independent calls to `createNoise2DData` — made at arbitrary
distinct call instants `t1`, `t2` in the same host environment — produce
identical output arrays. (The call instant can only enter through the
`alea(undefined)` stream, which a provided seed never selects; the rest of
the computation is pure, so the heightfield, and every mesh built from it,
is fully determined by `(seed, config, width, height)`.) -/
theorem createNoise2DData_deterministic (lib : JSLib) (t1 t2 : ℤ)
    (w h : ℕ) (cfg : NoiseConfig) (s : ℚ) (hs : cfg.seed = some s) :
    createNoise2DData lib t1 w h cfg = createNoise2DData lib t2 w h cfg := by
  simp only [createNoise2DData, rawOf, noiseOf, hs]

/-- Witness for C1: seed 0, octaves 1, a 2×1 grid, call instants 0 and 5. -/
theorem createNoise2DData_deterministic_witness :
    cfgSeedOct1.seed = some 0 ∧
    createNoise2DData libW 0 2 1 cfgSeedOct1 =
      createNoise2DData libW 5 2 1 cfgSeedOct1 :=
  ⟨rfl, createNoise2DData_deterministic libW 0 5 2 1 cfgSeedOct1 0 rfl⟩

/-- C2. Range invariant: whenever the pre-normalization buffer has
`min < max`, every sample of the normalized output is a defined value in
`[0, 1]`, and the values `0` and `1` are both attained (so the output's
minimum is exactly 0 and its maximum exactly 1). -/
theorem createNoise2DData_range (lib : JSLib) (t : ℤ) (w h : ℕ)
    (cfg : NoiseConfig) (hi lo : ℚ)
    (hmax : spreadMax (rawOf lib t w h cfg) = some hi)
    (hmin : spreadMin (rawOf lib t w h cfg) = some lo)
    (hlt : lo < hi) :
    (∀ o ∈ createNoise2DData lib t w h cfg,
      ∃ r, o = some r ∧ 0 ≤ r ∧ r ≤ 1) ∧
    some (0 : ℚ) ∈ createNoise2DData lib t w h cfg ∧
    some (1 : ℚ) ∈ createNoise2DData lib t w h cfg := by
  have hpos : 0 < hi - lo := sub_pos.mpr hlt
  have hd : hi - lo ≠ 0 := ne_of_gt hpos
  rw [createNoise2DData, normalizeData]
  simp only [hmax, hmin, Option.getD_some, if_neg hd]
  refine ⟨?_, ?_, ?_⟩
  · intro o ho
    rcases List.mem_map.mp ho with ⟨v, hv, hvo⟩
    refine ⟨(v - lo) / (hi - lo), hvo.symm, ?_, ?_⟩
    · exact div_nonneg (sub_nonneg.mpr (spreadMin_le hv hmin)) (le_of_lt hpos)
    · exact (div_le_one hpos).mpr (sub_le_sub_right (le_spreadMax hv hmax) lo)
  · exact List.mem_map.mpr ⟨lo, spreadMin_mem hmin, by rw [sub_self, zero_div]⟩
  · exact List.mem_map.mpr ⟨hi, spreadMax_mem hmax, by rw [div_self hd]⟩

/-- Witness for C2: seed 0, octaves 1 on a 2×1 grid in the environment
`libW` gives the raw buffer `[0, 3/5]`; the normalized output attains 0
and 1. -/
theorem createNoise2DData_range_witness :
    spreadMax (rawOf libW 0 2 1 cfgSeedOct1) = some (3/5) ∧
    spreadMin (rawOf libW 0 2 1 cfgSeedOct1) = some 0 ∧
    (0 : ℚ) < 3/5 ∧
    some (0 : ℚ) ∈ createNoise2DData libW 0 2 1 cfgSeedOct1 ∧
    some (1 : ℚ) ∈ createNoise2DData libW 0 2 1 cfgSeedOct1 := by
  have habs : |(1 : ℚ)/2| = 1/2 := by
    rw [abs_of_nonneg]; norm_num
  have hmax : spreadMax (rawOf libW 0 2 1 cfgSeedOct1) = some (3/5) := by
    norm_num [rawOf, rawField, cellValue, octaveSum, octaveCount_one,
      mergeConfig, cfgSeedOct1, noiseOf, libW, List.range_succ, spreadMax, habs]
  have hmin : spreadMin (rawOf libW 0 2 1 cfgSeedOct1) = some 0 := by
    norm_num [rawOf, rawField, cellValue, octaveSum, octaveCount_one,
      mergeConfig, cfgSeedOct1, noiseOf, libW, List.range_succ, spreadMin, habs]
  have hlt : (0 : ℚ) < 3/5 := by norm_num
  exact ⟨hmax, hmin, hlt,
    (createNoise2DData_range libW 0 2 1 cfgSeedOct1 (3/5) 0 hmax hmin hlt).2.1,
    (createNoise2DData_range libW 0 2 1 cfgSeedOct1 (3/5) 0 hmax hmin hlt).2.2⟩

/-- C3 counterexample. The claim says a `scale == 0` call "fails with an
InvalidConfig error raised at the start of generation, and never silently
returns a buffer containing NaN". In fact `createNoise2DData` performs no
validation at all: the `scale == 0` call below runs to completion and
silently returns a full 2×2 buffer every entry of which is the NaN of the
zero-range normalization division (modelled `none`). -/
theorem createNoise2DData_scale0_returns :
    (createNoise2DData libW 0 2 2 cfgScale0).length = 4 ∧
    createNoise2DData libW 0 2 2 cfgScale0 = [none, none, none, none] := by
  constructor
  · norm_num [createNoise2DData, normalizeData, rawOf, rawField, cellValue,
      octaveSum, octaveCount_one, mergeConfig, cfgScale0, noiseOf, libW,
      List.range_succ]
  · norm_num [createNoise2DData, normalizeData, rawOf, rawField, cellValue,
      octaveSum, octaveCount_one, mergeConfig, cfgScale0, noiseOf, libW,
      List.range_succ, spreadMax, spreadMin]

/-- C3 (amended). `createNoise2DData` never rejects a configuration: every
call returns a full `width * height` buffer. With `scale == 0` (JS: the
noise arguments become non-finite; in this exact-rational model the
coordinate term `nx * (1/0)` vanishes identically) or with an octave count
whose loop never runs (`octaves ≤ 0`), the pre-normalization field is
constant, and the zero-range normalization turns every sample into NaN
(`none`) — the buffer is silently returned anyway. -/
theorem createNoise2DData_noValidation (lib : JSLib) (t : ℤ) (w h : ℕ)
    (cfg : NoiseConfig) :
    (createNoise2DData lib t w h cfg).length = w * h ∧
    (cfg.scale = some 0 ∨ octaveCount (mergeConfig cfg).octaves = 0 →
      createNoise2DData lib t w h cfg = List.replicate (w * h) none) := by
  have hlen : (createNoise2DData lib t w h cfg).length = w * h := by
    rw [createNoise2DData, normalizeData]
    simp only [List.length_map]
    exact rawField_length lib (noiseOf lib t cfg) (mergeConfig cfg) w h
  refine ⟨hlen, fun hc => ?_⟩
  have hc2 : (mergeConfig cfg).scale = 0 ∨
      octaveCount (mergeConfig cfg).octaves = 0 := by
    rcases hc with hs | ho
    · exact Or.inl (by rw [mergeConfig, hs]; rfl)
    · exact Or.inr ho
  have hconst : ∀ v ∈ rawOf lib t w h cfg,
      v = cellValue lib (noiseOf lib t cfg) (mergeConfig cfg) w h 0 0 := by
    intro v hv
    rw [rawOf, rawField] at hv
    rcases List.mem_flatMap.mp hv with ⟨y, _, hy⟩
    rcases List.mem_map.mp hy with ⟨x, _, hx⟩
    rw [← hx]
    exact cellValue_indep lib (noiseOf lib t cfg) (mergeConfig cfg) hc2 w h x y
  rw [createNoise2DData, normalizeData_flat hconst, rawOf,
    rawField_length lib (noiseOf lib t cfg) (mergeConfig cfg) w h]

/-- Witness for C3 (amended), at the concrete `scale == 0` input of the
counterexample: the silently returned buffer is all-NaN. -/
theorem createNoise2DData_noValidation_witness :
    cfgScale0.scale = some 0 ∧
    createNoise2DData libW 0 2 2 cfgScale0 = List.replicate (2 * 2) none :=
  ⟨rfl, (createNoise2DData_noValidation libW 0 2 2 cfgScale0).2 (Or.inl rfl)⟩

/-- C4 counterexample. The claim says a perfectly flat pre-normalization
field makes the generator "return a defined fallback field (e.g. a uniform
field of 0) rather than propagating NaN". In the environment `libFlat`
(seeded noise constantly 0) the 2×1 raw field is flat, and the output is
`[none, none]` — every sample is the NaN of the `0 / 0` rescale, not a
defined fallback such as the uniform `[some 0, some 0]`. -/
theorem createNoise2DData_flat_propagatesNaN :
    createNoise2DData libFlat 0 2 1 cfgSeedOct1 = [none, none] ∧
    createNoise2DData libFlat 0 2 1 cfgSeedOct1 ≠ [some 0, some 0] := by
  have h : createNoise2DData libFlat 0 2 1 cfgSeedOct1 = [none, none] := by
    norm_num [createNoise2DData, normalizeData, rawOf, rawField, cellValue,
      octaveSum, octaveCount_one, mergeConfig, cfgSeedOct1, noiseOf, libFlat,
      List.range_succ, spreadMax, spreadMin]
  exact ⟨h, by rw [h]; simp⟩

/-- C4 (amended). When the pre-normalization field is perfectly flat, the
generator has no special case: the zero-range rescale divides `0 / 0` and
every output sample is NaN (`none`); the all-NaN buffer of full length is
returned, with no defined fallback substituted. -/
theorem createNoise2DData_flatField (lib : JSLib) (t : ℤ) (w h : ℕ)
    (cfg : NoiseConfig) (c : ℚ)
    (hflat : ∀ v ∈ rawOf lib t w h cfg, v = c) :
    createNoise2DData lib t w h cfg = List.replicate (w * h) none := by
  rw [createNoise2DData, normalizeData_flat hflat, rawOf,
    rawField_length lib (noiseOf lib t cfg) (mergeConfig cfg) w h]

/-- Witness for C4 (amended): in `libFlat` the 2×2 raw field is constantly
0, and the returned buffer is `replicate 4 none`. -/
theorem createNoise2DData_flatField_witness :
    (∀ v ∈ rawOf libFlat 0 2 2 cfgSeedOct1, v = 0) ∧
    createNoise2DData libFlat 0 2 2 cfgSeedOct1 = List.replicate (2 * 2) none := by
  have hflat : ∀ v ∈ rawOf libFlat 0 2 2 cfgSeedOct1, v = 0 := by
    intro v hv
    revert hv
    norm_num [rawOf, rawField, cellValue, octaveSum, octaveCount_one,
      mergeConfig, cfgSeedOct1, noiseOf, libFlat, List.range_succ]
  exact ⟨hflat, createNoise2DData_flatField libFlat 0 2 2 cfgSeedOct1 0 hflat⟩

/-- C9. The merge `{ ...DEFAULT_NOISE_CONFIG, ...config }` is built, but the
PRNG is seeded from the RAW `config.seed` (`alea(config.seed)` at
noise.ts:32, not `alea(_config.seed)`): omitting `seed` selects the
`alea(undefined)` stream rather than the documented default seed 0, so an
empty configuration and `{seed: 0}` produce different outputs (here
`[none, none]` versus `[some 0, some 1]` in the environment `libW`). For
every other field the merged default is used. -/
theorem createNoise2DData_seed_not_merged :
    createNoise2DData libW 0 2 1 cfgEmpty ≠
      createNoise2DData libW 0 2 1 cfgSeed0 := by
  have habs : |(1 : ℚ)/2| = 1/2 := by
    rw [abs_of_nonneg]; norm_num
  have h1 : createNoise2DData libW 0 2 1 cfgEmpty = [none, none] := by
    norm_num [createNoise2DData, normalizeData, rawOf, rawField, cellValue,
      octaveSum, octaveCount_six, mergeConfig, cfgEmpty, noiseOf, libW,
      List.range_succ, spreadMax, spreadMin]
  have h2 : createNoise2DData libW 0 2 1 cfgSeed0 = [some 0, some 1] := by
    norm_num [createNoise2DData, normalizeData, rawOf, rawField, cellValue,
      octaveSum, octaveCount_six, mergeConfig, cfgSeed0, noiseOf, libW,
      List.range_succ, spreadMax, spreadMin, habs]
  rw [h1, h2]
  simp

/-- Defaults are honored for every field except the seed: providing the
documented default values explicitly for all non-seed fields changes
nothing relative to providing only the seed. -/
theorem createNoise2DData_defaults_nonseed (lib : JSLib) (t : ℤ)
    (w h : ℕ) :
    createNoise2DData lib t w h cfgSeed0 =
      createNoise2DData lib t w h
        ⟨some 0, some 1, some 6, some (1/2), some 2, some 0, some 0,
          some 1, some (6/5)⟩ :=
  rfl

/-- Sum of a guarded constant over `range n`: `c * min m n`. -/
theorem sum_map_ite (c m : ℕ) :
    ∀ n, ((List.range n).map fun x => if x < m then c else 0).sum = c * min m n := by
  intro n
  induction n with
  | zero => simp
  | succ n ih =>
    rw [List.range_succ, List.map_append, List.sum_append, ih]
    by_cases h : n < m
    · have h1 : min m n = n := by omega
      have h2 : min m (n + 1) = n + 1 := by omega
      rw [h1, h2]
      simp [h]
      ring
    · have h1 : min m n = m := by omega
      have h2 : min m (n + 1) = m := by omega
      rw [h1, h2]
      simp [h]

/-- The index buffer holds exactly `6 * (vertexCount-1)²` entries. -/
theorem terrainIndices_length (vc : ℕ) :
    (terrainIndices vc).length = 6 * ((vc - 1) * (vc - 1)) := by
  rw [terrainIndices, List.length_flatMap]
  simp only [Function.comp_def]
  have hinner : ∀ y, (((List.range vc).flatMap fun x =>
      if x < vc - 1 ∧ y < vc - 1 then cellIndices vc x y else [])).length =
      if y < vc - 1 then 6 * (vc - 1) else 0 := by
    intro y
    rw [List.length_flatMap]
    simp only [Function.comp_def]
    by_cases hy : y < vc - 1
    · have hmap : ((List.range vc).map fun x =>
          (if x < vc - 1 ∧ y < vc - 1 then cellIndices vc x y else []).length) =
          (List.range vc).map fun x => if x < vc - 1 then 6 else 0 := by
        simp [hy, apply_ite List.length, cellIndices]
      rw [hmap, sum_map_ite 6 (vc - 1) vc]
      have hmin : min (vc - 1) vc = vc - 1 := by omega
      rw [hmin, if_pos hy]
    · simp [hy]
  calc ((List.range vc).map fun y => (((List.range vc).flatMap fun x =>
          if x < vc - 1 ∧ y < vc - 1 then cellIndices vc x y else [])).length).sum
      = ((List.range vc).map fun y => if y < vc - 1 then 6 * (vc - 1) else 0).sum := by
        simp only [hinner]
    _ = 6 * (vc - 1) * min (vc - 1) vc := sum_map_ite (6 * (vc - 1)) (vc - 1) vc
    _ = 6 * ((vc - 1) * (vc - 1)) := by
        have hmin : min (vc - 1) vc = vc - 1 := by omega
        rw [hmin, Nat.mul_assoc]

/-- A row-major grid index with both components at most `vc - 1` addresses
one of the `vc * vc` vertices. -/
theorem gridIndexBound (vc a b : ℕ) (hvc : 1 ≤ vc) (ha : a ≤ vc - 1)
    (hb : b ≤ vc - 1) : a * vc + b < vc * vc := by
  obtain ⟨v, rfl⟩ : ∃ v, vc = v + 1 := ⟨vc - 1, by omega⟩
  have ha2 : a ≤ v := by omega
  have hb2 : b ≤ v := by omega
  have h1 : a * (v + 1) ≤ v * (v + 1) := Nat.mul_le_mul_right _ ha2
  have h2 : a * (v + 1) + b ≤ v * (v + 1) + v := Nat.add_le_add h1 hb2
  have h3 : v * (v + 1) + v + 1 = (v + 1) * (v + 1) := by ring
  linarith

/-- Every entry of the index buffer addresses one of the `vc * vc` emitted
vertices. -/
theorem terrainIndices_lt (vc : ℕ) : ∀ i ∈ terrainIndices vc, i < vc * vc := by
  intro i hi
  rw [terrainIndices] at hi
  rcases List.mem_flatMap.mp hi with ⟨y, _, hiy⟩
  rcases List.mem_flatMap.mp hiy with ⟨x, _, hix⟩
  by_cases hcond : x < vc - 1 ∧ y < vc - 1
  · rw [if_pos hcond] at hix
    obtain ⟨hx1, hy1⟩ := hcond
    have hvc : 1 ≤ vc := by omega
    have hb1 : x ≤ vc - 1 := by omega
    have hb2 : x + 1 ≤ vc - 1 := by omega
    have hb3 : y ≤ vc - 1 := by omega
    have hb4 : y + 1 ≤ vc - 1 := by omega
    simp only [cellIndices, List.mem_cons, List.not_mem_nil, or_false] at hix
    rcases hix with h | h | h | h | h | h <;> subst h
    · exact gridIndexBound vc y x hvc hb3 hb1
    · have := gridIndexBound vc y (x + 1) hvc hb3 hb2
      rwa [← add_assoc] at this
    · exact gridIndexBound vc (y + 1) x hvc hb4 hb1
    · exact gridIndexBound vc (y + 1) x hvc hb4 hb1
    · have := gridIndexBound vc y (x + 1) hvc hb3 hb2
      rwa [← add_assoc] at this
    · have := gridIndexBound vc (y + 1) (x + 1) hvc hb4 hb2
      rwa [← add_assoc] at this
  · rw [if_neg hcond] at hix
    simp at hix

/-- C6. Mesh index validity: for `vertexCount ≥ 2` the index buffer's length
is divisible by 3, every index is strictly below `vertexCount²` (the number
of emitted vertices, which `terrainPositions` shows equals `vertexCount²`),
and the buffer describes exactly `(vertexCount-1)² * 2` triangles
(`(vertexCount-1)² * 2 * 3` indices). -/
theorem terrainIndices_valid (vc : ℕ) (_hvc : 2 ≤ vc) :
    (terrainIndices vc).length % 3 = 0 ∧
    (∀ i ∈ terrainIndices vc, i < vc * vc) ∧
    (∀ (heightAt : ℕ → ℕ → ℚ) (tw th : ℚ),
      (terrainPositions heightAt vc tw th).length = vc * vc) ∧
    (terrainIndices vc).length = (vc - 1) * (vc - 1) * 2 * 3 := by
  have hlen := terrainIndices_length vc
  refine ⟨?_, terrainIndices_lt vc, ?_, ?_⟩
  · rw [hlen]
    have h6 : 6 * ((vc - 1) * (vc - 1)) = 3 * (2 * ((vc - 1) * (vc - 1))) := by
      ring
    rw [h6]
    exact Nat.mul_mod_right 3 _
  · intro heightAt tw th
    exact grid_length (fun x y => terrainVertex heightAt vc tw th x y) vc vc
  · rw [hlen]
    ring

/-- Witness for C6 at `vertexCount = 3`: 8 triangles, 24 indices. -/
theorem terrainIndices_valid_witness :
    2 ≤ 3 ∧ (terrainIndices 3).length = (3 - 1) * (3 - 1) * 2 * 3 :=
  ⟨by norm_num, (terrainIndices_valid 3 (by norm_num)).2.2.2⟩

/-- C5. Island edge law: at each extreme corner of the grid (`x` and `y`
both `0` or `vertexCount - 1`), the emitted vertex lies at world position
`(±terrainWidth/2, 0, ±terrainWidth/2)`: both normalized edge distances are
exactly 1, so `edgeFactor = easeEdge(max nx ny) = 1³ = 1` and
`lerp(height, 0, 1) = 0` for every input heightfield, and the final rescale
keeps the height at exactly 0. -/
theorem terrainVertex_corner (heightAt : ℕ → ℕ → ℚ) (vc : ℕ) (tw th : ℚ)
    (x y : ℕ) (hvc : 2 ≤ vc) (htw : 0 < tw)
    (hx : x = 0 ∨ x = vc - 1) (hy : y = 0 ∨ y = vc - 1) :
    ((terrainVertex heightAt vc tw th x y).1 = -(tw / 2) ∨
      (terrainVertex heightAt vc tw th x y).1 = tw / 2) ∧
    (terrainVertex heightAt vc tw th x y).2.1 = 0 ∧
    ((terrainVertex heightAt vc tw th x y).2.2 = -(tw / 2) ∨
      (terrainVertex heightAt vc tw th x y).2.2 = tw / 2) := by
  have hvcQ : ((vc : ℚ) - 1) ≠ 0 := by
    have h2 : (2 : ℚ) ≤ (vc : ℚ) := by exact_mod_cast hvc
    linarith
  have htw2 : (tw / 2 : ℚ) ≠ 0 := by positivity
  have cornerVal : ∀ z : ℕ, z = 0 ∨ z = vc - 1 →
      mapLinear (z : ℚ) 0 ((vc : ℚ) - 1) (-(tw / 2)) (tw / 2) = -(tw / 2) ∨
      mapLinear (z : ℚ) 0 ((vc : ℚ) - 1) (-(tw / 2)) (tw / 2) = tw / 2 := by
    intro z hz
    rcases hz with h0 | h1
    · left
      subst h0
      rw [mapLinear]
      norm_num
    · right
      subst h1
      have hcast : (((vc - 1 : ℕ)) : ℚ) = (vc : ℚ) - 1 := by
        have h1le : 1 ≤ vc := by omega
        exact Nat.cast_sub h1le
      rw [mapLinear, hcast, sub_zero, div_self hvcQ]
      ring
  have cornerAbs : ∀ q : ℚ, (q = -(tw / 2) ∨ q = tw / 2) → |q| = tw / 2 := by
    intro q hq
    rcases hq with h | h <;> subst h
    · rw [abs_neg, abs_of_pos (by linarith : (0 : ℚ) < tw / 2)]
    · rw [abs_of_pos (by linarith : (0 : ℚ) < tw / 2)]
  have hone : mapLinear (tw / 2) 0 (tw / 2) 0 1 = 1 := by
    rw [mapLinear, sub_zero, sub_zero, div_self htw2]
    norm_num
  have habsX := cornerAbs _ (cornerVal x hx)
  have habsY := cornerAbs _ (cornerVal y hy)
  simp only [terrainVertex]
  refine ⟨cornerVal x hx, ?_, cornerVal y hy⟩
  rw [habsX, habsY, hone, max_self]
  have hease : easeEdge 1 = 1 := by rw [easeEdge]; norm_num
  have hlerp : lerp (heightAt x y) 0 1 = 0 := by rw [lerp]; ring
  rw [hease, hlerp, mapLinear]
  norm_num

/-- Witness for C5: `vertexCount = 3`, `terrainWidth = 10`, corner
`(x, y) = (0, 2)`, arbitrary heightfield constantly `1/3`. -/
theorem terrainVertex_corner_witness :
    2 ≤ 3 ∧ (0 : ℚ) < 10 ∧
    (terrainVertex (fun _ _ => (1 : ℚ)/3) 3 10 7 0 2).2.1 = 0 :=
  ⟨by norm_num, by norm_num,
    (terrainVertex_corner (fun _ _ => (1 : ℚ)/3) 3 10 7 0 2 (by norm_num)
      (by norm_num) (Or.inl rfl) (Or.inr rfl)).2.1⟩

/-- Height bound for a single in-grid vertex: with `0 < terrainWidth` the
normalized edge distances lie in `[0, 1]`, hence so does the edge factor;
the lerp toward 0 keeps the sample in `[0, 1]` and the final rescale maps
it into `[0, terrainHeight]`. -/
theorem terrainVertex_heightRange (heightAt : ℕ → ℕ → ℚ) (vc : ℕ)
    (tw th : ℚ) (x y : ℕ) (hvc : 2 ≤ vc) (htw : 0 < tw) (hth : 0 ≤ th)
    (hx : x < vc) (hy : y < vc)
    (h0 : 0 ≤ heightAt x y) (h1 : heightAt x y ≤ 1) :
    0 ≤ (terrainVertex heightAt vc tw th x y).2.1 ∧
    (terrainVertex heightAt vc tw th x y).2.1 ≤ th := by
  have h2 : (2 : ℚ) ≤ (vc : ℚ) := by exact_mod_cast hvc
  have hD : (0 : ℚ) < (vc : ℚ) - 1 := by linarith
  have htw2 : (0 : ℚ) < tw / 2 := by positivity
  have hformX : ∀ v : ℚ, mapLinear v 0 ((vc : ℚ) - 1) (-(tw / 2)) (tw / 2) =
      -(tw / 2) + tw * (v / ((vc : ℚ) - 1)) := by
    intro v
    rw [mapLinear]
    ring
  have hformN : ∀ v : ℚ, mapLinear v 0 (tw / 2) 0 1 = v / (tw / 2) := by
    intro v
    rw [mapLinear]
    ring
  have hformH : ∀ v : ℚ, mapLinear v 0 1 0 th = th * v := by
    intro v
    rw [mapLinear]
    ring
  have hformL : ∀ a e : ℚ, lerp a 0 e = a * (1 - e) := by
    intro a e
    rw [lerp]
    ring
  have coordBound : ∀ z : ℕ, z < vc →
      |mapLinear (z : ℚ) 0 ((vc : ℚ) - 1) (-(tw / 2)) (tw / 2)| ≤ tw / 2 := by
    intro z hz
    have hq0 : 0 ≤ (z : ℚ) / ((vc : ℚ) - 1) :=
      div_nonneg (Nat.cast_nonneg z) (le_of_lt hD)
    have hzle : (z : ℚ) ≤ (vc : ℚ) - 1 := by
      have hz1 : (z : ℚ) + 1 ≤ (vc : ℚ) := by exact_mod_cast hz
      linarith
    have hq1 : (z : ℚ) / ((vc : ℚ) - 1) ≤ 1 := (div_le_one hD).mpr hzle
    have hm0 : 0 ≤ tw * ((z : ℚ) / ((vc : ℚ) - 1)) := mul_nonneg htw.le hq0
    have hm1 : tw * ((z : ℚ) / ((vc : ℚ) - 1)) ≤ tw :=
      mul_le_of_le_one_right htw.le hq1
    rw [hformX, abs_le]
    constructor <;> linarith
  have hnx1 : |mapLinear (x : ℚ) 0 ((vc : ℚ) - 1) (-(tw / 2)) (tw / 2)| /
      (tw / 2) ≤ 1 := (div_le_one htw2).mpr (coordBound x hx)
  have hny1 : |mapLinear (y : ℚ) 0 ((vc : ℚ) - 1) (-(tw / 2)) (tw / 2)| /
      (tw / 2) ≤ 1 := (div_le_one htw2).mpr (coordBound y hy)
  have hnx0 : 0 ≤ |mapLinear (x : ℚ) 0 ((vc : ℚ) - 1) (-(tw / 2)) (tw / 2)| /
      (tw / 2) := div_nonneg (abs_nonneg _) htw2.le
  have hny0 : 0 ≤ |mapLinear (y : ℚ) 0 ((vc : ℚ) - 1) (-(tw / 2)) (tw / 2)| /
      (tw / 2) := div_nonneg (abs_nonneg _) htw2.le
  simp only [terrainVertex, hformN, hformL, hformH]
  have hm0 : 0 ≤ max (|mapLinear (x : ℚ) 0 ((vc : ℚ) - 1) (-(tw / 2))
      (tw / 2)| / (tw / 2)) (|mapLinear (y : ℚ) 0 ((vc : ℚ) - 1) (-(tw / 2))
      (tw / 2)| / (tw / 2)) := le_trans hnx0 (le_max_left _ _)
  have hm1 : max (|mapLinear (x : ℚ) 0 ((vc : ℚ) - 1) (-(tw / 2))
      (tw / 2)| / (tw / 2)) (|mapLinear (y : ℚ) 0 ((vc : ℚ) - 1) (-(tw / 2))
      (tw / 2)| / (tw / 2)) ≤ 1 := max_le hnx1 hny1
  have he0 : 0 ≤ easeEdge (max (|mapLinear (x : ℚ) 0 ((vc : ℚ) - 1)
      (-(tw / 2)) (tw / 2)| / (tw / 2)) (|mapLinear (y : ℚ) 0 ((vc : ℚ) - 1)
      (-(tw / 2)) (tw / 2)| / (tw / 2))) := by
    rw [easeEdge]
    exact pow_nonneg hm0 3
  have he1 : easeEdge (max (|mapLinear (x : ℚ) 0 ((vc : ℚ) - 1)
      (-(tw / 2)) (tw / 2)| / (tw / 2)) (|mapLinear (y : ℚ) 0 ((vc : ℚ) - 1)
      (-(tw / 2)) (tw / 2)| / (tw / 2))) ≤ 1 := by
    rw [easeEdge]
    exact pow_le_one₀ hm0 hm1
  refine ⟨mul_nonneg hth (mul_nonneg h0 (by linarith)), ?_⟩
  exact mul_le_of_le_one_right hth (mul_le_one₀ h1 (by linarith) (by linarith))

/-- C10. Height range invariant: for `vertexCount ≥ 2`, `terrainWidth > 0`,
`terrainHeight ≥ 0` and a heightfield with all samples in `[0, 1]`, every
vertex emitted by `createTerrain` has its Y coordinate in
`[0, terrainHeight]`. -/
theorem terrainPositions_heightRange (heightAt : ℕ → ℕ → ℚ) (vc : ℕ)
    (tw th : ℚ) (hvc : 2 ≤ vc) (htw : 0 < tw) (hth : 0 ≤ th)
    (hfield : ∀ x y, 0 ≤ heightAt x y ∧ heightAt x y ≤ 1) :
    ∀ p ∈ terrainPositions heightAt vc tw th, 0 ≤ p.2.1 ∧ p.2.1 ≤ th := by
  intro p hp
  rw [terrainPositions] at hp
  rcases List.mem_flatMap.mp hp with ⟨y, hy, hpy⟩
  rcases List.mem_map.mp hpy with ⟨x, hx, hpx⟩
  rw [← hpx]
  exact terrainVertex_heightRange heightAt vc tw th x y hvc htw hth
    (List.mem_range.mp hx) (List.mem_range.mp hy)
    (hfield x y).1 (hfield x y).2

/-- Witness for C10: the first vertex of the 2×2 mesh over the constant
heightfield `1/2` with `terrainWidth = 10`, `terrainHeight = 5`. -/
theorem terrainPositions_heightRange_witness :
    0 ≤ (terrainVertex (fun _ _ => (1 : ℚ)/2) 2 10 5 0 0).2.1 ∧
    (terrainVertex (fun _ _ => (1 : ℚ)/2) 2 10 5 0 0).2.1 ≤ 5 :=
  terrainPositions_heightRange (fun _ _ => (1 : ℚ)/2) 2 10 5 (by norm_num)
    (by norm_num) (by norm_num) (fun _ _ => by norm_num) _ (by
      rw [terrainPositions]
      exact List.mem_flatMap.mpr ⟨0, by simp, List.mem_map.mpr ⟨0, by simp, rfl⟩⟩)

/-- C7 counterexample. The claimed scenario says the 2×2 mesh over the
constant heightfield `0.5` with `terrainWidth = 10`, `terrainHeight = 5`
has its vertices at `(±5, 2.5, ±5)`. It does not: island shaping is
hardwired on (`const island = true`) and every vertex of a 2×2 grid is an
extreme corner, so no emitted vertex has height `2.5`. -/
theorem terrainPositions_c7_no_half_height :
    ((-5 : ℚ), (5 : ℚ)/2, (-5 : ℚ)) ∉
      terrainPositions (fun _ _ => (1 : ℚ)/2) 2 10 5 := by
  norm_num [terrainPositions, terrainVertex, mapLinear, lerp, easeEdge,
    List.range_succ, Prod.ext_iff]

/-- C7 (amended). The 2×2 mesh over the constant heightfield `0.5` with
`terrainWidth = 10`, `terrainHeight = 5` produces exactly 4 vertices at the
world corners — but at height 0, `(±5, 0, ±5)`, because the always-enabled
island shaping forces corner heights to zero — and exactly 2 triangles
(6 indices, `[0, 1, 2, 2, 1, 3]`). -/
theorem terrainPositions_c7_amended :
    terrainPositions (fun _ _ => (1 : ℚ)/2) 2 10 5 =
      [(-5, 0, -5), (5, 0, -5), (-5, 0, 5), (5, 0, 5)] ∧
    terrainIndices 2 = [0, 1, 2, 2, 1, 3] := by
  constructor
  · norm_num [terrainPositions, terrainVertex, mapLinear, lerp, easeEdge,
      List.range_succ, Prod.ext_iff]
  · norm_num [terrainIndices, cellIndices, List.range_succ]

/-- C8 counterexample. In `fragment.glsl` the first band blends with factor
`normalizedHeight * 3.0`, which reaches only `0.99` at the threshold
`0.33`: the left-limit of the first linear blend at the threshold,
`mix(low, mid, 0.33 * 3)`, differs from the value of the next branch there
(`fragClassify` at `0.33`, which is `mid`). Shown at the concrete colors
`low = (0,0,0)`, `mid = (1,0,0)`, `high = (0,1,0)`: the limit is
`(0.99, 0, 0)` but the branch value is `(1, 0, 0)` — a discontinuity of
`0.01 * (mid - low)`. -/
theorem fragClassify_discontinuous :
    mixColor (0, 0, 0) (1, 0, 0) ((33/100) * 3) ≠
      fragClassify (0, 0, 0) (1, 0, 0) (0, 1, 0) (33/100) := by
  norm_num [fragClassify, mixColor, mixQ, clampQ, Prod.ext_iff]

/-- C8 (amended). For both shader variants `classifyColor(0) = lowColor`
and `classifyColor(1) = highColor`; the material-plugin variant (blend
factors `(h - t) / 0.33`) is continuous across both thresholds — its first
blend's left-limit at `0.33` is `mix(low, mid, 1) = mid`, the branch value
there, and its second blend's left-limit at `0.66` is
`mix(mid, high, 1) = high`, the branch value there. (The `fragment.glsl`
variant, with `* 3.0` factors, is continuous only in the degenerate cases
`low = mid` resp. `mid = high`.) -/
theorem classify_endpoints_plugin_continuous (low mid high : Color) :
    fragClassify low mid high 0 = low ∧
    fragClassify low mid high 1 = high ∧
    pluginClassify low mid high 0 = low ∧
    pluginClassify low mid high 1 = high ∧
    mixColor low mid ((33/100) / (33/100)) = mid ∧
    pluginClassify low mid high (33/100) = mid ∧
    mixColor mid high (((66 : ℚ)/100 - 33/100) / (33/100)) = high ∧
    pluginClassify low mid high (66/100) = high := by
  rcases low with ⟨lr, lg, lb⟩
  rcases mid with ⟨mr, mg, mb⟩
  rcases high with ⟨hr, hg, hb⟩
  refine ⟨?_, ?_, ?_, ?_, ?_, ?_, ?_, ?_⟩ <;>
    norm_num [fragClassify, pluginClassify, mixColor, mixQ, clampQ,
      Prod.ext_iff]
